import Mathlib

/-!
# Verification of the goldmark DefinitionList extension
  (src/extension/definition_list.go)

A shallow embedding of the extension's block parsers
(`definitionListParser`, `definitionDescriptionParser`), the close-time
tightness classifier, and the three registered HTML render functions.

Lines are `List Char` (the trailing line feed stripped by the host reader).
Go's byte output is modelled as `List Char`.  Go type assertions that can
panic (nil dereference / failed cast) are modelled with `Except GoPanic`.

The `util` indentation helpers and the surrounding host driver are not part
of the source under verification; they are modelled from the spec (§4.1,
§2/§6) and are marked as such in their doc comments.
-/

namespace DefListVerify

/-- Bytes of a string literal; Go writes bytes, we model output as `List Char`. -/
def str (s : String) : List Char := s.data

/-- Modelled from the spec: a blank character (space, tab, or line terminator). -/
def isBlankChar (c : Char) : Bool :=
  c = ' ' || c = '\t' || c = '\n' || c = '\r'

/-- Modelled from the spec (§4.1): `util.IsBlank` — a line is blank when it
consists only of blank characters. -/
def IsBlank (line : List Char) : Bool :=
  line.all isBlankChar

/-- Modelled from the spec (§4.3 step 2): trailing-whitespace trimming used
for term extraction (`text.Segment.TrimRightSpace`). -/
def trimRightSpace (line : List Char) : List Char :=
  (line.reverse.dropWhile isBlankChar).reverse

/-- Modelled from the spec (§4.1): `util.IndentWidth` — the visual column
width of the leading blank space of a line starting at column `pos`, a tab
expanding to the next multiple-of-4 stop. -/
def IndentWidth : List Char → Nat → Nat
  | [], _ => 0
  | c :: rest, pos =>
    if c = ' ' then 1 + IndentWidth rest (pos + 1)
    else if c = '\t' then
      let adv := 4 - pos % 4
      adv + IndentWidth rest (pos + adv)
    else 0

/-- Modelled from the spec (§4.1): `util.IndentPosition` — the character
offset into the line that a target column width corresponds to, plus the
fractional padding when a tab's expansion overshoots the target. -/
def IndentPosition : List Char → Nat → Nat → Nat × Nat
  | _, _, 0 => (0, 0)
  | [], _, _ => (0, 0)
  | c :: rest, pos, width =>
    if c = ' ' then
      let r := IndentPosition rest (pos + 1) (width - 1)
      (r.1 + 1, r.2)
    else if c = '\t' then
      let adv := 4 - pos % 4
      if width ≤ adv then (1, adv - width)
      else
        let r := IndentPosition rest (pos + adv) (width - adv)
        (r.1 + 1, r.2)
    else (0, 0)

/-- Go `line[pos]`; callers that would make Go panic on an out-of-range
index are excluded by explicit bounds hypotheses in the theorems. -/
def charAt (line : List Char) (pos : Nat) : Char :=
  line.getD pos '\x00'

mutual

/-- The AST node kinds this extension reads or creates.  `defList` carries
`Offset` and `TemporaryParagraph` (the referenced paragraph's lines);
`defDesc` carries `IsTight` and the host-maintained blank-previous-lines
flag. -/
inductive Node where
  | document (children : NodeList)
  | paragraph (lines : List (List Char))
  | textBlock (lines : List (List Char))
  | defList (offset : Nat) (tempPara : Option (List (List Char))) (children : NodeList)
  | defTerm (lines : List (List Char))
  | defDesc (tight : Bool) (blankPrev : Bool) (children : NodeList)
  deriving DecidableEq

/-- Sibling lists of `Node` (mutual with `Node`). -/
inductive NodeList where
  | nil
  | cons (head : Node) (tail : NodeList)
  deriving DecidableEq

end

namespace NodeList

def append : NodeList → NodeList → NodeList
  | nil, l => l
  | cons a t, l => cons a (append t l)

def map (f : Node → Node) : NodeList → NodeList
  | nil => nil
  | cons a t => cons (f a) (map f t)

def getLast? : NodeList → Option Node
  | nil => none
  | cons a nil => some a
  | cons _ (cons b t) => getLast? (cons b t)

/-- The element just before the last one (the last element's previous sibling). -/
def beforeLast? : NodeList → Option Node
  | nil => none
  | cons _ nil => none
  | cons a (cons _ nil) => some a
  | cons _ (cons b (cons c t)) => beforeLast? (cons b (cons c t))

end NodeList

def isDefList : Node → Bool
  | Node.defList _ _ _ => true
  | _ => false

def isDefDesc : Node → Bool
  | Node.defDesc _ _ _ => true
  | _ => false

def isParagraph : Node → Bool
  | Node.paragraph _ => true
  | _ => false

/-- Children of a block container (empty for leaves). -/
def childrenOf : Node → NodeList
  | Node.document cs => cs
  | Node.defList _ _ cs => cs
  | Node.defDesc _ _ cs => cs
  | _ => NodeList.nil

/-- `parent.LastChild()`. -/
def lastChildOf (parent : Node) : Option Node :=
  (childrenOf parent).getLast?

/-- `parent.LastChild().PreviousSibling()`. -/
def beforeLastChildOf (parent : Node) : Option Node :=
  (childrenOf parent).beforeLast?

/-- The `Offset` field of a `defList` (0 for other nodes). -/
def offsetOf : Node → Nat
  | Node.defList off _ _ => off
  | _ => 0

/-- The `TemporaryParagraph` field of a `defList` (none for other nodes). -/
def tempParaOf : Node → Option (List (List Char))
  | Node.defList _ tp _ => tp
  | _ => none

/-- Go runtime faults this code can hit: a nil-pointer dereference after a
comma-ok cast, or a failed single-value type assertion. -/
inductive GoPanic where
  | nilDeref
  | badCast
  deriving DecidableEq

/-- `parser.NoChildren` / `parser.HasChildren` as returned by `Open`. -/
inductive OpenState where
  | noChildren
  | hasChildren
  deriving DecidableEq

/-- Outcome of `definitionListParser.Open`: either the no-match result
`(nil, parser.NoChildren)`, or a matched `DefinitionList` (with `reused`
recording whether it is an existing list mutated in place, as opposed to a
freshly created one) and the returned `parser.State`. -/
inductive DLOpenResult where
  | noMatch
  | matched (reused : Bool) (st : OpenState) (list : Node)
  deriving DecidableEq

/-- `definitionListParser.Open` (src/extension/definition_list.go lines 25-65).
`pos` is `pc.BlockOffset()`; `line` is the peeked line. -/
def dlOpen (parent : Node) (line : List Char) (pos : Nat) : DLOpenResult :=
  if isDefList parent then DLOpenResult.noMatch
  else if charAt line pos ≠ ':' then DLOpenResult.noMatch
  else
    let last := lastChildOf parent
    let w := IndentWidth (line.drop (pos + 1)) (pos + 1)
    if w < 1 then DLOpenResult.noMatch
    else
      let w2 := if 8 ≤ w then 5 else w
      let off := w2 + pos + 1
      match last with
      | some (Node.paragraph ls) =>
        match beforeLastChildOf parent with
        | some (Node.defList _ _ ch) =>
          DLOpenResult.matched true OpenState.hasChildren (Node.defList off (some ls) ch)
        | _ =>
          DLOpenResult.matched false OpenState.hasChildren (Node.defList off (some ls) NodeList.nil)
      | some (Node.defList _ _ ch) =>
        DLOpenResult.matched true OpenState.hasChildren (Node.defList off none ch)
      | _ => DLOpenResult.noMatch

/-- A `reader.AdvanceAndSetPadding` request: character offset (relative to
the slice handed to `IndentPosition`) and padding. -/
structure RAction where
  pos : Nat
  padding : Nat
  deriving DecidableEq

/-- Outcome of `definitionListParser.Continue`. -/
inductive CResult where
  | close
  | continueHC (action : Option RAction)
  deriving DecidableEq

/-- `definitionListParser.Continue` (src/extension/definition_list.go
lines 67-80).  `lineOffset` is `reader.LineOffset()`. -/
def dlContinue (node : Node) (line : List Char) (lineOffset : Nat) :
    Except GoPanic CResult :=
  if IsBlank line then Except.ok (CResult.continueHC none)
  else
    match node with
    | Node.defList off _ _ =>
      let w := IndentWidth line lineOffset
      if w < off then Except.ok CResult.close
      else
        let ip := IndentPosition line lineOffset off
        Except.ok (CResult.continueHC (some ⟨ip.1, ip.2⟩))
    | _ => Except.error GoPanic.nilDeref

/-- One `DefinitionTerm` per paragraph line, in order, trailing whitespace
trimmed (the loop of `definitionDescriptionParser.Open`, lines 116-124). -/
def termsOfLines : List (List Char) → NodeList
  | [] => NodeList.nil
  | l :: rest => NodeList.cons (Node.defTerm [trimRightSpace l]) (termsOfLines rest)

/-- Outcome of `definitionDescriptionParser.Open`: the parent list after the
call (mutated in place in Go), the opened description (none on no-match),
the cursor advance, and whether the temporary paragraph was detached from
the tree. -/
structure DDOpenResult where
  parentAfter : Node
  opened : Option Node
  action : Option RAction
  detachedPara : Bool
  deriving DecidableEq

/-- `definitionDescriptionParser.Open` (src/extension/definition_list.go
lines 105-129). -/
def ddOpen (parent : Node) (line : List Char) (pos : Nat) :
    Except GoPanic DDOpenResult :=
  if charAt line pos ≠ ':' then Except.ok ⟨parent, none, none, false⟩
  else
    match parent with
    | Node.defList off tp ch =>
      let newCh :=
        match tp with
        | some ls => ch.append (termsOfLines ls)
        | none => ch
      let ip := IndentPosition (line.drop (pos + 1)) (pos + 1) (off - (pos + 1))
      Except.ok ⟨Node.defList off none newCh,
        some (Node.defDesc false false NodeList.nil), some ⟨ip.1, ip.2⟩, tp.isSome⟩
    | _ => Except.error GoPanic.nilDeref

/-- Tight descriptions demote `Paragraph` children to `TextBlock`s carrying
the same lines (`definitionDescriptionParser.Close`, lines 140-149). -/
def demoteParagraph : Node → Node
  | Node.paragraph ls => Node.textBlock ls
  | n => n

/-- `definitionDescriptionParser.Close` (src/extension/definition_list.go
lines 137-150). -/
def ddClose (node : Node) : Except GoPanic Node :=
  match node with
  | Node.defDesc _ blankPrev ch =>
    let tight := !blankPrev
    if tight then
      Except.ok (Node.defDesc tight blankPrev (ch.map demoteParagraph))
    else
      Except.ok (Node.defDesc tight blankPrev ch)
  | _ => Except.error GoPanic.badCast

/-- `ast.WalkStatus` as returned by every render function here. -/
inductive WalkStatus where
  | walkContinue
  deriving DecidableEq

/-- What a render function hands back: the bytes written to the buffered
writer, the walk status, and the returned error. -/
structure RenderOut where
  out : List Char
  status : WalkStatus
  err : Option String
  deriving DecidableEq

/-- `DefinitionListHTMLRenderer.renderDefinitionList`
(src/extension/definition_list.go lines 184-191). -/
def renderDefinitionList (entering : Bool) : RenderOut :=
  if entering then ⟨str "<dl>\n", WalkStatus.walkContinue, none⟩
  else ⟨str "</dl>\n", WalkStatus.walkContinue, none⟩

/-- `DefinitionListHTMLRenderer.renderDefinitionTerm`
(src/extension/definition_list.go lines 193-200). -/
def renderDefinitionTerm (entering : Bool) : RenderOut :=
  if entering then ⟨str "<dt>", WalkStatus.walkContinue, none⟩
  else ⟨str "</dt>\n", WalkStatus.walkContinue, none⟩

/-- `DefinitionListHTMLRenderer.renderDefinitionDescription`
(src/extension/definition_list.go lines 202-214).  The cast
`node.(*ast.DefinitionDescription)` runs only in the entering branch. -/
def renderDefinitionDescription (node : Node) (entering : Bool) :
    Except GoPanic RenderOut :=
  if entering then
    match node with
    | Node.defDesc tight _ _ =>
      if tight then Except.ok ⟨str "<dd>", WalkStatus.walkContinue, none⟩
      else Except.ok ⟨str "<dd>\n", WalkStatus.walkContinue, none⟩
    | _ => Except.error GoPanic.badCast
  else Except.ok ⟨str "</dd>\n", WalkStatus.walkContinue, none⟩

/-- Modelled from the spec (§6): the external inline/text renderer used
between the tags — a node's lines joined by line breaks. -/
def inlineText : List (List Char) → List Char
  | [] => []
  | [l] => l
  | l :: rest => l ++ '\n' :: inlineText rest

/-- The bytes a render function wrote (none on a Go panic). -/
def outOf (e : Except GoPanic RenderOut) : List Char :=
  match e with
  | Except.ok r => r.out
  | Except.error _ => []

mutual

/-- Renders one node onto an explicit writer buffer `acc` (the `BufWriter`
threaded through the walk).  The definition-list kinds use the registered
render functions above; the document/paragraph/text fallback is modelled
from the spec (§6). -/
def renderAcc (acc : List Char) : Node → List Char
  | Node.document cs => renderAccList acc cs
  | Node.paragraph ls => acc ++ str "<p>" ++ inlineText ls ++ str "</p>\n"
  | Node.textBlock ls => acc ++ inlineText ls
  | Node.defList _ _ cs =>
    renderAccList (acc ++ (renderDefinitionList true).out) cs
      ++ (renderDefinitionList false).out
  | Node.defTerm ls =>
    acc ++ (renderDefinitionTerm true).out ++ inlineText ls
      ++ (renderDefinitionTerm false).out
  | Node.defDesc tight bp cs =>
    renderAccList
      (acc ++ outOf (renderDefinitionDescription (Node.defDesc tight bp cs) true)) cs
      ++ outOf (renderDefinitionDescription (Node.defDesc tight bp cs) false)

/-- Renders a sibling list onto the writer buffer, left to right. -/
def renderAccList (acc : List Char) : NodeList → List Char
  | NodeList.nil => acc
  | NodeList.cons n rest => renderAccList (renderAcc acc n) rest

end

/-- One full render pass over a finished tree, starting from an empty
writer. -/
def renderDoc (t : Node) : List Char :=
  renderAcc [] t

/-- Modelled from the spec (§2, §6): `pc.BlockOffset()` — the offset of the
first non-blank character of the current line. -/
def blockOffset (line : List Char) : Nat :=
  match line with
  | [] => 0
  | c :: rest => if c = ' ' || c = '\t' then blockOffset rest + 1 else 0

/-- Modelled from the spec (§2, §6): the host driver's line loop restricted
to a two-line document.  Line 1 is offered to the list opener (it declines:
the empty document has no last child) and falls back to a generic paragraph;
line 2 is offered to the list opener — which may interrupt the open
paragraph — and, on a match, to the description opener as the list's child
recognizer on the same line; the description opener's cursor advance leaves
the line's remainder, which is parsed as the description's paragraph; end of
input closes the description (running the tightness classifier) and the
list, and the finished tree is rendered. -/
def processTwoLineDoc (line1 line2 : List Char) : Option (List Char) :=
  if IsBlank line1 then none
  else
    match dlOpen (Node.document NodeList.nil) line1 (blockOffset line1) with
    | DLOpenResult.matched _ _ _ => none
    | DLOpenResult.noMatch =>
      let para := Node.paragraph [line1]
      let doc := Node.document (NodeList.cons para NodeList.nil)
      let pos := blockOffset line2
      match dlOpen doc line2 pos with
      | DLOpenResult.noMatch => none
      | DLOpenResult.matched _ _ list =>
        match ddOpen list line2 pos with
        | Except.error _ => none
        | Except.ok r =>
          match r.opened, r.action with
          | some desc, some act =>
            let rest := (line2.drop (pos + 1)).drop act.pos
            if IsBlank rest then none
            else
              let desc1 :=
                match desc with
                | Node.defDesc t bp cs =>
                  Node.defDesc t bp
                    (cs.append (NodeList.cons (Node.paragraph [rest]) NodeList.nil))
                | n => n
              match ddClose desc1 with
              | Except.error _ => none
              | Except.ok desc2 =>
                let list2 :=
                  match r.parentAfter with
                  | Node.defList off tp cs =>
                    Node.defList off tp
                      (cs.append (NodeList.cons desc2 NodeList.nil))
                  | n => n
                some (renderDoc (Node.document (NodeList.cons list2 NodeList.nil)))
          | _, _ => none

/-- Converts an ordinary list of nodes to a sibling list, preserving order
(used to state the term-extraction property). -/
def listToNodeList : List Node → NodeList
  | [] => NodeList.nil
  | n :: rest => NodeList.cons n (listToNodeList rest)

/-- Whether an operation returned normally (did not panic). -/
def isOkR {α : Type} : Except GoPanic α → Bool
  | Except.ok _ => true
  | Except.error _ => false

end DefListVerify

deriving instance DecidableEq for Except

namespace DefListVerify

/-! ## Theorems -/

/-- Term extraction builds exactly one `DefinitionTerm` per paragraph line,
in the paragraph's original order, each trimmed of trailing whitespace. -/
theorem termsOfLines_eq_map (ls : List (List Char)) :
    termsOfLines ls =
      listToNodeList (ls.map fun l => Node.defTerm [trimRightSpace l]) := by
  induction ls with
  | nil => rfl
  | cons l rest ih => simp [termsOfLines, listToNodeList, ih]

/-- C8: the three registered render functions emit exactly the literal tag
strings of the source — `renderDefinitionList` writes `<dl>\n` entering and
`</dl>\n` exiting; `renderDefinitionTerm` writes `<dt>` entering and
`</dt>\n` exiting; `renderDefinitionDescription` writes `<dd>` entering a
tight description, `<dd>\n` entering a loose one, and `</dd>\n` exiting —
and every call returns `WalkContinue` with a nil error. -/
theorem claim_C8_renderer_literal_output :
    (∀ e : Bool, renderDefinitionList e =
      ⟨if e then str "<dl>\n" else str "</dl>\n", WalkStatus.walkContinue, none⟩)
    ∧ (∀ e : Bool, renderDefinitionTerm e =
      ⟨if e then str "<dt>" else str "</dt>\n", WalkStatus.walkContinue, none⟩)
    ∧ (∀ (tight bp : Bool) (ch : NodeList),
        renderDefinitionDescription (Node.defDesc tight bp ch) true =
          Except.ok ⟨if tight then str "<dd>" else str "<dd>\n",
            WalkStatus.walkContinue, none⟩)
    ∧ (∀ n : Node, renderDefinitionDescription n false =
        Except.ok ⟨str "</dd>\n", WalkStatus.walkContinue, none⟩) := by
  refine ⟨fun e => ?_, fun e => ?_, fun tight bp ch => ?_, fun n => ?_⟩
  · cases e <;> rfl
  · cases e <;> rfl
  · cases tight <;> rfl
  · rfl

/-- C2: when a `DefinitionDescription` closes, `IsTight` is set to true iff
the node has no blank lines immediately before its content; when tight,
every direct `Paragraph` child is replaced in place by a `TextBlock`
carrying exactly the same lines while non-`Paragraph` children are left
unchanged; when not tight, all children are left unchanged. -/
theorem claim_C2_close_tightness (t0 bp : Bool) (ch : NodeList) :
    ddClose (Node.defDesc t0 bp ch) =
      Except.ok (Node.defDesc (!bp) bp
        (if bp then ch else ch.map demoteParagraph))
    ∧ (∀ ls, demoteParagraph (Node.paragraph ls) = Node.textBlock ls)
    ∧ (∀ n : Node, isParagraph n = false → demoteParagraph n = n) := by
  refine ⟨?_, fun ls => rfl, fun n hn => ?_⟩
  · cases bp <;> rfl
  · cases n <;> first | rfl | simp [isParagraph] at hn

/-- Witness for C2 at a concrete description node. -/
theorem claim_C2_close_tightness_witness :
    (ddClose (Node.defDesc false false
        (NodeList.cons (Node.paragraph [str "x"])
          (NodeList.cons (Node.defTerm [str "y"]) NodeList.nil))) =
      Except.ok (Node.defDesc true false
        (NodeList.cons (Node.textBlock [str "x"])
          (NodeList.cons (Node.defTerm [str "y"]) NodeList.nil))))
    ∧ isParagraph (Node.defTerm [str "y"]) = false
    ∧ demoteParagraph (Node.defTerm [str "y"]) = Node.defTerm [str "y"] := by
  refine ⟨?_, by decide, ?_⟩
  · have h := (claim_C2_close_tightness false false
      (NodeList.cons (Node.paragraph [str "x"])
        (NodeList.cons (Node.defTerm [str "y"]) NodeList.nil))).1
    simpa [NodeList.map, demoteParagraph] using h
  · exact (claim_C2_close_tightness false false NodeList.nil).2.2
      (Node.defTerm [str "y"]) (by decide)

/-- C3: `definitionListParser.Continue` on an open `DefinitionList` returns
Continue-with-HasChildren unconditionally on a blank line; otherwise it
closes the list when the line's indentation width (from the current cursor
position) is below the stored `Offset`, and otherwise advances the cursor to
the position-and-padding of the `Offset` column and continues with
children. -/
theorem claim_C3_list_continuation (off : Nat) (tp : Option (List (List Char)))
    (ch : NodeList) (line : List Char) (lineOffset : Nat) :
    dlContinue (Node.defList off tp ch) line lineOffset =
      (if IsBlank line then Except.ok (CResult.continueHC none)
       else if IndentWidth line lineOffset < off then Except.ok CResult.close
       else Except.ok (CResult.continueHC (some
          ⟨(IndentPosition line lineOffset off).1,
           (IndentPosition line lineOffset off).2⟩))) := by
  by_cases hb : IsBlank line
  · simp [dlContinue, hb]
  · by_cases hw : IndentWidth line lineOffset < off <;>
      simp [dlContinue, hb, hw]

/-- Witness for C3 at a concrete list and lines. -/
theorem claim_C3_list_continuation_witness :
    dlContinue (Node.defList 2 none NodeList.nil) (str "   x") 0 =
      Except.ok (CResult.continueHC (some ⟨2, 0⟩)) := by
  have h := claim_C3_list_continuation 2 none NodeList.nil (str "   x") 0
  simpa using h

/-- C4: when `definitionListParser.Open` matches, the returned list is
chosen by exactly three cases on the parent's last child: a paragraph whose
previous sibling is a definition list (that list reused: children kept,
offset updated, `TemporaryParagraph` set to the paragraph); a paragraph with
no such previous sibling (a brand-new list wrapping the paragraph); or a
definition list itself (reused: children kept, offset updated,
`TemporaryParagraph` cleared) — and every match returns the `HasChildren`
state. -/
theorem claim_C4_open_three_cases (parent : Node) (line : List Char) (pos : Nat)
    (reused : Bool) (st : OpenState) (lst : Node)
    (h : dlOpen parent line pos = DLOpenResult.matched reused st lst) :
    st = OpenState.hasChildren ∧
    ((∃ ls off0 tp0 ch0,
        lastChildOf parent = some (Node.paragraph ls)
        ∧ beforeLastChildOf parent = some (Node.defList off0 tp0 ch0)
        ∧ reused = true
        ∧ lst = Node.defList
            ((if 8 ≤ IndentWidth (line.drop (pos + 1)) (pos + 1) then 5
              else IndentWidth (line.drop (pos + 1)) (pos + 1)) + pos + 1)
            (some ls) ch0)
     ∨ (∃ ls,
        lastChildOf parent = some (Node.paragraph ls)
        ∧ (∀ off0 tp0 ch0,
            beforeLastChildOf parent ≠ some (Node.defList off0 tp0 ch0))
        ∧ reused = false
        ∧ lst = Node.defList
            ((if 8 ≤ IndentWidth (line.drop (pos + 1)) (pos + 1) then 5
              else IndentWidth (line.drop (pos + 1)) (pos + 1)) + pos + 1)
            (some ls) NodeList.nil)
     ∨ (∃ off0 tp0 ch0,
        lastChildOf parent = some (Node.defList off0 tp0 ch0)
        ∧ reused = true
        ∧ lst = Node.defList
            ((if 8 ≤ IndentWidth (line.drop (pos + 1)) (pos + 1) then 5
              else IndentWidth (line.drop (pos + 1)) (pos + 1)) + pos + 1)
            none ch0)) := by
  unfold dlOpen at h
  by_cases h1 : isDefList parent = true
  · simp [h1] at h
  · simp only [h1, if_false, Bool.false_eq_true] at h
    by_cases h2 : charAt line pos = ':'
    · simp only [h2, ne_eq, not_true_eq_false, if_false] at h
      by_cases h3 : IndentWidth (line.drop (pos + 1)) (pos + 1) < 1
      · simp [h3] at h
      · simp only [h3, if_false] at h
        rcases hl : lastChildOf parent with _ | n
        · simp [hl] at h
        · cases n with
          | paragraph ls =>
            rcases hbl : beforeLastChildOf parent with _ | m
            · simp only [hl, hbl] at h
              injection h with e1 e2 e3; subst e1; subst e2; subst e3
              exact ⟨rfl, Or.inr (Or.inl ⟨ls, rfl, by simp [hbl], rfl, rfl⟩)⟩
            · cases m with
              | defList off0 tp0 ch0 =>
                simp only [hl, hbl] at h
                injection h with e1 e2 e3; subst e1; subst e2; subst e3
                exact ⟨rfl, Or.inl ⟨ls, off0, tp0, ch0, rfl, rfl, rfl, rfl⟩⟩
              | document cs =>
                simp only [hl, hbl] at h
                injection h with e1 e2 e3; subst e1; subst e2; subst e3
                exact ⟨rfl, Or.inr (Or.inl ⟨ls, rfl, by simp [hbl], rfl, rfl⟩)⟩
              | paragraph ls2 =>
                simp only [hl, hbl] at h
                injection h with e1 e2 e3; subst e1; subst e2; subst e3
                exact ⟨rfl, Or.inr (Or.inl ⟨ls, rfl, by simp [hbl], rfl, rfl⟩)⟩
              | textBlock ls2 =>
                simp only [hl, hbl] at h
                injection h with e1 e2 e3; subst e1; subst e2; subst e3
                exact ⟨rfl, Or.inr (Or.inl ⟨ls, rfl, by simp [hbl], rfl, rfl⟩)⟩
              | defTerm ls2 =>
                simp only [hl, hbl] at h
                injection h with e1 e2 e3; subst e1; subst e2; subst e3
                exact ⟨rfl, Or.inr (Or.inl ⟨ls, rfl, by simp [hbl], rfl, rfl⟩)⟩
              | defDesc t bp cs =>
                simp only [hl, hbl] at h
                injection h with e1 e2 e3; subst e1; subst e2; subst e3
                exact ⟨rfl, Or.inr (Or.inl ⟨ls, rfl, by simp [hbl], rfl, rfl⟩)⟩
          | defList off0 tp0 ch0 =>
            simp only [hl] at h
            injection h with e1 e2 e3; subst e1; subst e2; subst e3
            exact ⟨rfl, Or.inr (Or.inr ⟨off0, tp0, ch0, rfl, rfl, rfl⟩)⟩
          | document cs => simp [hl] at h
          | textBlock ls => simp [hl] at h
          | defTerm ls => simp [hl] at h
          | defDesc t bp cs => simp [hl] at h
    · simp [h2] at h

/-- Witness for C4: a term paragraph followed by a marker line creates a
fresh list (case 2) in the `HasChildren` state. -/
theorem claim_C4_open_three_cases_witness :
    dlOpen (Node.document (NodeList.cons (Node.paragraph [str "Term"]) NodeList.nil))
        (str ": a") 0 =
      DLOpenResult.matched false OpenState.hasChildren
        (Node.defList 2 (some [str "Term"]) NodeList.nil)
    ∧ OpenState.hasChildren = OpenState.hasChildren :=
  ⟨by decide,
   (claim_C4_open_three_cases
      (Node.document (NodeList.cons (Node.paragraph [str "Term"]) NodeList.nil))
      (str ": a") 0 false OpenState.hasChildren
      (Node.defList 2 (some [str "Term"]) NodeList.nil) (by decide)).1⟩

/-- C6: a matched `definitionListParser.Open` stores the continuation
offset `w + pos + 1`, where `w` is the indentation width after the marker
(relative to `pos + 1`) replaced by exactly 5 whenever `w ≥ 8`. -/
theorem claim_C6_offset_formula (parent : Node) (line : List Char) (pos : Nat)
    (reused : Bool) (st : OpenState) (lst : Node)
    (h : dlOpen parent line pos = DLOpenResult.matched reused st lst) :
    offsetOf lst =
      (if 8 ≤ IndentWidth (line.drop (pos + 1)) (pos + 1) then 5
       else IndentWidth (line.drop (pos + 1)) (pos + 1)) + pos + 1 := by
  unfold dlOpen at h
  by_cases h1 : isDefList parent = true
  · simp [h1] at h
  · simp only [h1, if_false, Bool.false_eq_true] at h
    by_cases h2 : charAt line pos = ':'
    · simp only [h2, ne_eq, not_true_eq_false, if_false] at h
      by_cases h3 : IndentWidth (line.drop (pos + 1)) (pos + 1) < 1
      · simp [h3] at h
      · simp only [h3, if_false] at h
        rcases hl : lastChildOf parent with _ | n
        · simp [hl] at h
        · cases n with
          | paragraph ls =>
            rcases hbl : beforeLastChildOf parent with _ | m
            · simp only [hl, hbl] at h
              injection h with e1 e2 e3; subst e3; rfl
            · cases m <;> simp only [hl, hbl] at h <;>
                (injection h with e1 e2 e3; subst e3; rfl)
          | defList off0 tp0 ch0 =>
            simp only [hl] at h
            injection h with e1 e2 e3; subst e3; rfl
          | document cs => simp [hl] at h
          | textBlock ls => simp [hl] at h
          | defTerm ls => simp [hl] at h
          | defDesc t bp cs => simp [hl] at h
    · simp [h2] at h

/-- Witness for C6: eight spaces after the marker clamp the width to 5,
giving offset 5 + 0 + 1 = 6. -/
theorem claim_C6_offset_formula_witness :
    dlOpen (Node.document (NodeList.cons (Node.paragraph [str "Term"]) NodeList.nil))
        (str ":        a") 0 =
      DLOpenResult.matched false OpenState.hasChildren
        (Node.defList 6 (some [str "Term"]) NodeList.nil)
    ∧ offsetOf (Node.defList 6 (some [str "Term"]) NodeList.nil) = 6 :=
  ⟨by decide,
   by
    have h := claim_C6_offset_formula
      (Node.document (NodeList.cons (Node.paragraph [str "Term"]) NodeList.nil))
      (str ":        a") 0 false OpenState.hasChildren
      (Node.defList 6 (some [str "Term"]) NodeList.nil) (by decide)
    simpa using h⟩

/-- C7: `definitionListParser.Open` returns the no-match result in exactly
these cases: the parent is already a `DefinitionList`, the character at the
block offset is not the marker, the indentation width after the marker is
below 1, or the parent's last child is neither a `Paragraph` nor a
`DefinitionList`. -/
theorem claim_C7_open_no_match (parent : Node) (line : List Char) (pos : Nat)
    (_hpos : pos < line.length) :
    dlOpen parent line pos = DLOpenResult.noMatch ↔
      (isDefList parent = true
       ∨ charAt line pos ≠ ':'
       ∨ IndentWidth (line.drop (pos + 1)) (pos + 1) < 1
       ∨ ((∀ ls, lastChildOf parent ≠ some (Node.paragraph ls))
          ∧ (∀ off0 tp0 ch0,
              lastChildOf parent ≠ some (Node.defList off0 tp0 ch0)))) := by
  unfold dlOpen
  by_cases h1 : isDefList parent = true
  · simp [h1]
  · simp only [h1, if_false, Bool.false_eq_true]
    by_cases h2 : charAt line pos = ':'
    · simp only [h2, ne_eq, not_true_eq_false, if_false]
      by_cases h3 : IndentWidth (line.drop (pos + 1)) (pos + 1) < 1
      · simp [h3]
      · simp only [h3, if_false]
        rcases hl : lastChildOf parent with _ | n
        · simp [h1, h3]
        · cases n with
          | paragraph ls =>
            rcases hbl : beforeLastChildOf parent with _ | m
            · simp [h1, h3]
            · cases m <;> simp [h1, h3]
          | defList off0 tp0 ch0 => simp [h1, h3]
          | document cs => simp [h1, h3]
          | textBlock ls => simp [h1, h3]
          | defTerm ls => simp [h1, h3]
          | defDesc t bp cs => simp [h1, h3]
    · simp [h2]

/-- Witness for C7: a marker with no space after it does not match. -/
theorem claim_C7_open_no_match_witness :
    0 < (str ":x").length
    ∧ dlOpen (Node.document (NodeList.cons (Node.paragraph [str "Term"]) NodeList.nil))
        (str ":x") 0 = DLOpenResult.noMatch :=
  ⟨by decide,
   (claim_C7_open_no_match
      (Node.document (NodeList.cons (Node.paragraph [str "Term"]) NodeList.nil))
      (str ":x") 0 (by decide)).mpr (by
        right; right; left; decide)⟩

/-- C5 counterexample: a call to `definitionDescriptionParser.Open` on a
`DefinitionList` whose `TemporaryParagraph` is non-nil, with a line whose
block-offset character is not `':'`, returns before touching the list: no
term is appended, nothing is detached, and `TemporaryParagraph` is still
non-nil after the call — contrary to the claim's "after the call returns
the list's TemporaryParagraph is nil". -/
theorem claim_C5_counterexample :
    ddOpen (Node.defList 2 (some [str "a"]) NodeList.nil) (str "x") 0 =
      Except.ok ⟨Node.defList 2 (some [str "a"]) NodeList.nil, none, none, false⟩
    ∧ tempParaOf (Node.defList 2 (some [str "a"]) NodeList.nil) ≠ none := by
  exact ⟨by decide, by decide⟩

/-- C5 (amended with the marker guard): on every call to
`definitionDescriptionParser.Open` on a `DefinitionList` whose line carries
`':'` at the block offset, exactly one `DefinitionTerm` per line of the
temporary paragraph (in original order, trailing whitespace trimmed) is
appended to the list, the paragraph is detached, and `TemporaryParagraph`
is nil afterwards; if it was nil, no terms are created and nothing is
detached. -/
theorem claim_C5_term_extraction (off : Nat) (tp : Option (List (List Char)))
    (ch : NodeList) (line : List Char) (pos : Nat)
    (hm : charAt line pos = ':') :
    ddOpen (Node.defList off tp ch) line pos =
      Except.ok ⟨Node.defList off none
          (match tp with
           | some ls =>
             ch.append (listToNodeList
               (ls.map fun l => Node.defTerm [trimRightSpace l]))
           | none => ch),
        some (Node.defDesc false false NodeList.nil),
        some ⟨(IndentPosition (line.drop (pos + 1)) (pos + 1) (off - (pos + 1))).1,
              (IndentPosition (line.drop (pos + 1)) (pos + 1) (off - (pos + 1))).2⟩,
        tp.isSome⟩ := by
  unfold ddOpen
  simp only [hm, ne_eq, not_true_eq_false, if_false]
  cases tp with
  | none => rfl
  | some ls => simp [termsOfLines_eq_map]

/-- Witness for C5 at a concrete list, line, and two-line paragraph. -/
theorem claim_C5_term_extraction_witness :
    charAt (str ": d") 0 = ':'
    ∧ ddOpen (Node.defList 2 (some [str "a ", str "b"]) NodeList.nil) (str ": d") 0 =
      Except.ok ⟨Node.defList 2 none
          (NodeList.cons (Node.defTerm [str "a"])
            (NodeList.cons (Node.defTerm [str "b"]) NodeList.nil)),
        some (Node.defDesc false false NodeList.nil), some ⟨1, 0⟩, true⟩ :=
  ⟨by decide,
   by
    have h := claim_C5_term_extraction 2 (some [str "a ", str "b"]) NodeList.nil
      (str ": d") 0 (by decide)
    rw [h]
    decide⟩

/-- C9 counterexample: `definitionListParser.Continue` invoked on a node
that is not a `DefinitionList` (a driver contract violation) with a blank
line returns normally instead of panicking, because the blank-line branch
runs before the node's state is touched. -/
theorem claim_C9_counterexample :
    isDefList (Node.paragraph []) = false
    ∧ dlContinue (Node.paragraph []) (str " ") 0 =
        Except.ok (CResult.continueHC none) := by
  exact ⟨by decide, by decide⟩

/-- C9 (amended): under the driver's node-kind precondition none of the
three operations can fail or panic; a node-kind violation is fatal exactly
when the operation reaches the node's stored state — `Continue` on a
non-blank line, description `Open` on a marker line, description `Close`
always — while guard paths that return first do not panic. -/
theorem claim_C9_kind_safety :
    (∀ (off : Nat) (tp : Option (List (List Char))) (ch : NodeList)
        (line : List Char) (lineOffset : Nat),
      isOkR (dlContinue (Node.defList off tp ch) line lineOffset) = true)
    ∧ (∀ (off : Nat) (tp : Option (List (List Char))) (ch : NodeList)
        (line : List Char) (pos : Nat),
      isOkR (ddOpen (Node.defList off tp ch) line pos) = true)
    ∧ (∀ (tight bp : Bool) (ch : NodeList),
      isOkR (ddClose (Node.defDesc tight bp ch)) = true)
    ∧ (∀ (n : Node) (line : List Char) (lineOffset : Nat),
      isDefList n = false → IsBlank line = false →
        dlContinue n line lineOffset = Except.error GoPanic.nilDeref)
    ∧ (∀ (n : Node) (line : List Char) (pos : Nat),
      isDefList n = false → charAt line pos = ':' →
        ddOpen n line pos = Except.error GoPanic.nilDeref)
    ∧ (∀ n : Node, isDefDesc n = false →
        ddClose n = Except.error GoPanic.badCast) := by
  refine ⟨?_, ?_, ?_, ?_, ?_, ?_⟩
  · intro off tp ch line lineOffset
    by_cases hb : IsBlank line
    · simp [dlContinue, hb, isOkR]
    · by_cases hw : IndentWidth line lineOffset < off <;>
        simp [dlContinue, hb, hw, isOkR]
  · intro off tp ch line pos
    by_cases hm : charAt line pos = ':'
    · cases tp <;> simp [ddOpen, hm, isOkR]
    · simp [ddOpen, hm, isOkR]
  · intro tight bp ch
    cases bp <;> simp [ddClose, isOkR]
  · intro n line lineOffset hk hb
    cases n <;> simp_all [dlContinue, isDefList]
  · intro n line pos hk hm
    cases n <;> simp_all [ddOpen, isDefList]
  · intro n hk
    cases n <;> simp_all [ddClose, isDefDesc]

/-- Witness for C9 at concrete nodes and lines, covering both the
no-panic and the panic clauses. -/
theorem claim_C9_kind_safety_witness :
    isOkR (dlContinue (Node.defList 2 none NodeList.nil) (str "  x") 0) = true
    ∧ isDefList (Node.textBlock []) = false
    ∧ IsBlank (str "x") = false
    ∧ dlContinue (Node.textBlock []) (str "x") 0 = Except.error GoPanic.nilDeref
    ∧ charAt (str ": d") 0 = ':'
    ∧ ddOpen (Node.textBlock []) (str ": d") 0 = Except.error GoPanic.nilDeref
    ∧ isDefDesc (Node.paragraph []) = false
    ∧ ddClose (Node.paragraph []) = Except.error GoPanic.badCast :=
  ⟨claim_C9_kind_safety.1 2 none NodeList.nil (str "  x") 0,
   by decide, by decide,
   claim_C9_kind_safety.2.2.2.1 (Node.textBlock []) (str "x") 0 (by decide) (by decide),
   by decide,
   claim_C9_kind_safety.2.2.2.2.1 (Node.textBlock []) (str ": d") 0 (by decide) (by decide),
   by decide,
   claim_C9_kind_safety.2.2.2.2.2 (Node.paragraph []) (by decide)⟩

mutual

/-- The render walk is a writer homomorphism: the bytes appended to any
starting buffer are the bytes of a render from the empty buffer. -/
theorem renderAcc_append (n : Node) :
    ∀ acc : List Char, renderAcc acc n = acc ++ renderAcc [] n := by
  intro acc
  cases n with
  | document cs =>
    simp only [renderAcc]
    exact renderAccList_append cs acc
  | paragraph ls => simp [renderAcc]
  | textBlock ls => simp [renderAcc]
  | defList off tp cs =>
    simp only [renderAcc]
    rw [renderAccList_append cs (acc ++ (renderDefinitionList true).out),
      renderAccList_append cs ([] ++ (renderDefinitionList true).out)]
    simp
  | defTerm ls => simp [renderAcc]
  | defDesc tight bp cs =>
    simp only [renderAcc]
    rw [renderAccList_append cs
        (acc ++ outOf (renderDefinitionDescription (Node.defDesc tight bp cs) true)),
      renderAccList_append cs
        ([] ++ outOf (renderDefinitionDescription (Node.defDesc tight bp cs) true))]
    simp

/-- Sibling-list version of `renderAcc_append`. -/
theorem renderAccList_append (l : NodeList) :
    ∀ acc : List Char, renderAccList acc l = acc ++ renderAccList [] l := by
  intro acc
  cases l with
  | nil => simp [renderAccList]
  | cons n rest =>
    simp only [renderAccList]
    rw [renderAccList_append rest (renderAcc acc n),
      renderAccList_append rest (renderAcc [] n),
      renderAcc_append n acc]
    simp

end

/-- C10: rendering is deterministic and stateless — the bytes the walk
appends to any writer buffer depend only on the tree, so running the
registered render functions over the same finished tree a second time
(starting from the first pass's buffer) appends byte-identical output. -/
theorem claim_C10_render_idempotent (t : Node) :
    (∀ acc : List Char, renderAcc acc t = acc ++ renderDoc t)
    ∧ renderAcc (renderDoc t) t = renderDoc t ++ renderDoc t :=
  ⟨fun acc => renderAcc_append t acc, renderAcc_append t (renderDoc t)⟩

/-- An empty document has no last child, so the list opener never matches
on it. -/
theorem dlOpen_empty_doc (line : List Char) (pos : Nat) :
    dlOpen (Node.document NodeList.nil) line pos = DLOpenResult.noMatch := by
  unfold dlOpen
  by_cases h3 : IndentWidth (line.drop (pos + 1)) (pos + 1) < 1 <;>
    split_ifs <;>
      simp [h3, lastChildOf, childrenOf, NodeList.getLast?]

/-- A blank line trims to nothing. -/
theorem trimRightSpace_of_isBlank (l : List Char) (h : IsBlank l = true) :
    trimRightSpace l = [] := by
  unfold trimRightSpace
  unfold IsBlank at h
  rw [List.all_eq_true] at h
  have h2 : ∀ x ∈ l.reverse, isBlankChar x = true := by
    intro x hx
    exact h x (List.mem_reverse.mp hx)
  have h3 : List.dropWhile isBlankChar l.reverse = [] :=
    List.dropWhile_eq_nil_iff.mpr h2
  rw [h3]
  rfl

/-- A line whose first character is not blank has zero indentation width
at every starting column. -/
theorem indentWidth_zero_of_head (l : List Char)
    (h : isBlankChar (charAt l 0) = false) (p : Nat) : IndentWidth l p = 0 := by
  cases l with
  | nil => rfl
  | cons c r =>
    have hc : charAt (c :: r) 0 = c := rfl
    rw [hc] at h
    simp only [isBlankChar, Bool.or_eq_false_iff, decide_eq_false_iff_not] at h
    simp [IndentWidth, h.1.1, h.1.2]

/-- A column-width target of zero is already reached. -/
theorem indentPosition_zero (l : List Char) (p : Nat) :
    IndentPosition l p 0 = (0, 0) := by
  cases l <;> rfl

/-- C1: a document whose paragraph line (the term) is immediately followed
by a line consisting of the marker `':'`, a space, and text parses (with
the DefinitionList extension's recognizers) and renders to exactly
`<dl>\n<dt>term</dt>\n<dd>text</dd>\n</dl>\n` — a tight description with no
inner paragraph tag. -/
theorem claim_C1_two_line_html (term text : List Char)
    (h1 : term ≠ []) (h2 : trimRightSpace term = term)
    (h3 : text ≠ []) (h4 : isBlankChar (charAt text 0) = false) :
    processTwoLineDoc term (':' :: ' ' :: text) =
      some (str "<dl>\n<dt>" ++ term ++ str "</dt>\n<dd>" ++ text
        ++ str "</dd>\n</dl>\n") := by
  have hbt : IsBlank term = false := by
    cases hb : IsBlank term
    · rfl
    · exfalso
      apply h1
      have ht := trimRightSpace_of_isBlank term hb
      rw [h2] at ht
      exact ht
  have hbt2 : IsBlank text = false := by
    cases text with
    | nil => exact absurd rfl h3
    | cons c r =>
      have hc : charAt (c :: r) 0 = c := rfl
      rw [hc] at h4
      simp [IsBlank, h4]
  have hw : IndentWidth (' ' :: text) 1 = 1 := by
    rw [IndentWidth]
    simp [indentWidth_zero_of_head text h4 2]
  have hopen : dlOpen
      (Node.document (NodeList.cons (Node.paragraph [term]) NodeList.nil))
      (':' :: ' ' :: text) 0 =
      DLOpenResult.matched false OpenState.hasChildren
        (Node.defList 2 (some [term]) NodeList.nil) := by
    unfold dlOpen
    simp [isDefList, charAt, hw, lastChildOf, beforeLastChildOf, childrenOf,
      NodeList.getLast?, NodeList.beforeLast?]
  have hip : IndentPosition (' ' :: text) 1 1 = (1, 0) := by
    simp [IndentPosition, indentPosition_zero]
  have hdd : ddOpen (Node.defList 2 (some [term]) NodeList.nil)
      (':' :: ' ' :: text) 0 =
      Except.ok ⟨Node.defList 2 none
          (NodeList.cons (Node.defTerm [term]) NodeList.nil),
        some (Node.defDesc false false NodeList.nil), some ⟨1, 0⟩, true⟩ := by
    unfold ddOpen
    simp [charAt, NodeList.append, termsOfLines, h2, hip]
  have hclose : ddClose (Node.defDesc false false
        (NodeList.cons (Node.paragraph [text]) NodeList.nil)) =
      Except.ok (Node.defDesc true false
        (NodeList.cons (Node.textBlock [text]) NodeList.nil)) := by
    simp [ddClose, NodeList.map, demoteParagraph]
  have hrender : renderDoc (Node.document (NodeList.cons
        (Node.defList 2 none (NodeList.cons (Node.defTerm [term])
          (NodeList.cons (Node.defDesc true false
            (NodeList.cons (Node.textBlock [text]) NodeList.nil))
            NodeList.nil))) NodeList.nil)) =
      str "<dl>\n<dt>" ++ term ++ str "</dt>\n<dd>" ++ text
        ++ str "</dd>\n</dl>\n" := by
    have e1 : str "<dl>\n<dt>" = str "<dl>\n" ++ str "<dt>" := by decide
    have e2 : str "</dt>\n<dd>" = str "</dt>\n" ++ str "<dd>" := by decide
    have e3 : str "</dd>\n</dl>\n" = str "</dd>\n" ++ str "</dl>\n" := by decide
    rw [e1, e2, e3]
    simp [renderDoc, renderAcc, renderAccList, renderDefinitionList,
      renderDefinitionTerm, renderDefinitionDescription, outOf, inlineText]
  have hpos : blockOffset (':' :: ' ' :: text) = 0 := rfl
  unfold processTwoLineDoc
  rw [hpos]
  simp only [hbt, Bool.false_eq_true, if_false, dlOpen_empty_doc, hopen, hdd,
    List.drop_succ_cons, List.drop_zero, hbt2, NodeList.append, hclose,
    hrender]

/-- Witness for C1 at a concrete term and text. -/
theorem claim_C1_two_line_html_witness :
    str "Term" ≠ ([] : List Char)
    ∧ trimRightSpace (str "Term") = str "Term"
    ∧ str "text" ≠ ([] : List Char)
    ∧ isBlankChar (charAt (str "text") 0) = false
    ∧ processTwoLineDoc (str "Term") (':' :: ' ' :: str "text") =
        some (str "<dl>\n<dt>" ++ str "Term" ++ str "</dt>\n<dd>" ++ str "text"
          ++ str "</dd>\n</dl>\n") :=
  ⟨by decide, by decide, by decide, by decide,
   claim_C1_two_line_html (str "Term") (str "text")
     (by decide) (by decide) (by decide) (by decide)⟩

end DefListVerify
